import Mathlib

/-!
Verification of the response-handler pipeline of the http-cli repository:
the layered variable store (src/stores/variableStore.ts), the sandboxed
script executor (src/execution/script-executor.ts), the client capability
API wiring (src/execution/client-api.ts), the redaction engine
(src/utils, redact functions) and the response-handler block extractor
(src/parsers/response-handler-parser.ts).

The TypeScript sources are embedded shallowly: JavaScript strings are
modelled as lists of Unicode characters, JS `Map` objects as association
lists, promises returned by the pluggable durable-write collaborator as
explicit `Except` results, and the two external collaborators that are
not part of the repository (the Node `vm` engine that actually runs a
script, and the WHATWG `URL` parser) as a small operational model of the
sandbox respectively a simplified URL splitter covering the ordinary
`scheme://[userinfo@]host/path?query#fragment` shape.
-/

namespace HttpCli

/-! ## JavaScript string primitives over lists of characters -/

/-- Does `pat` occur as a prefix of `s` (character-wise)? -/
def hasPrefixL : List Char → List Char → Bool
  | [], _ => true
  | _ :: _, [] => false
  | a :: as, b :: bs => a == b && hasPrefixL as bs

/-- Index of the first occurrence of `pat` in `s`, modelling JS
`String.prototype.indexOf` (which returns 0 for the empty pattern). -/
def firstIdx (pat : List Char) : List Char → Option Nat
  | [] => if hasPrefixL pat [] then some 0 else none
  | c :: rest =>
    if hasPrefixL pat (c :: rest) then some 0
    else (firstIdx pat rest).map (· + 1)

/-- Substring containment, modelling JS `String.prototype.includes`. -/
def occursIn (pat s : List Char) : Bool :=
  (firstIdx pat s).isSome

/-- Index of the last occurrence of the character `c`, modelling JS
`String.prototype.lastIndexOf` with a single-character pattern. -/
def lastIdxChar (c : Char) : List Char → Option Nat
  | [] => none
  | a :: rest =>
    match lastIdxChar c rest with
    | some i => some (i + 1)
    | none => if a == c then some 0 else none

/-- Index of the first occurrence of character `c` at or after position
`start`, modelling JS `indexOf(c, start)`. -/
def idxCharFrom (c : Char) (cs : List Char) (start : Nat) : Option Nat :=
  match firstIdx [c] (cs.drop start) with
  | some i => some (start + i)
  | none => none

/-- Replace the first occurrence of `pat` by `repl`, modelling JS
`String.prototype.replace` with a plain (non-regex, non-global) pattern. -/
def replaceFirst (s pat repl : List Char) : List Char :=
  match firstIdx pat s with
  | none => s
  | some i => s.take i ++ repl ++ s.drop (i + pat.length)

/-- The whitespace class stripped by JS `String.prototype.trim`
(restricted to its ASCII members, which are the ones the handler
pipeline can produce). -/
def isJsWS (c : Char) : Bool :=
  c == ' ' || c == '\t' || c == '\n' || c == '\r' || c == '\x0b' || c == '\x0c'

/-- JS `String.prototype.trim` on a character list. -/
def jsTrimL (l : List Char) : List Char :=
  ((l.dropWhile isJsWS).reverse.dropWhile isJsWS).reverse

/-- JS `String.prototype.trim`. -/
def jsTrim (s : String) : String :=
  String.mk (jsTrimL s.data)

/-- JS `String.prototype.substring`: clamps both indices to the string
and swaps them when the start exceeds the end. -/
def jsSubstringL (cs : List Char) (a b : Nat) : List Char :=
  (cs.drop (min a b)).take (max a b - min a b)

/-- Split on a separator character, modelling JS
`String.prototype.split` with a one-character separator (the result is
never empty; splitting the empty string yields one empty piece). -/
def splitOnChar (sep : Char) : List Char → List (List Char)
  | [] => [[]]
  | c :: rest =>
    let r := splitOnChar sep rest
    if c == sep then [] :: r
    else
      match r with
      | [] => [[c]]
      | h :: t => (c :: h) :: t

/-- JS `content.split("\n")`. -/
def splitNL (cs : List Char) : List (List Char) :=
  splitOnChar '\n' cs

/-! ## Layered variable store (src/stores/variableStore.ts)

The two JS `Map` objects of `createVariableStore` are embedded as
association lists; the closure state becomes an explicit `Store` value
threaded through the operations. The optional `envWriter` collaborator
is a function parameter whose promise outcome is an `Except` value. -/

/-- JS `Map.prototype.set`: overwrite in place, else append. -/
def mapSet (m : List (String × String)) (k v : String) : List (String × String) :=
  match m with
  | [] => [(k, v)]
  | (k0, v0) :: rest => if k0 = k then (k, v) :: rest else (k0, v0) :: mapSet rest k v

/-- JS `Map.prototype.get`. -/
def mapGet (m : List (String × String)) (k : String) : Option String :=
  match m with
  | [] => none
  | (k0, v0) :: rest => if k0 = k then some v0 else mapGet rest k

/-- JS `Map.prototype.has` (values are strings, so presence coincides
with `get` being defined). -/
def mapHas (m : List (String × String)) (k : String) : Bool :=
  (mapGet m k).isSome

/-- The state captured by the `createVariableStore` closure: the
session-tier `memoryStore` and the persistent-tier `persistentStore`. -/
structure Store where
  memory : List (String × String)
  persistent : List (String × String)
deriving Repr, DecidableEq

/-- The durable-write collaborator `envWriter`: its promise either
resolves (`ok`) or rejects with a message (`error`). -/
def Writer : Type :=
  String → String → Except String Unit

/-- Sanitize a key by removing carriage returns and line feeds,
modelling `key.replace(/[\n\r]/g, "")`. -/
def sanitizeKey (key : String) : String :=
  String.mk (key.data.filter (fun c => c != '\n' && c != '\r'))

/-- The `setMemory` operation. -/
def setMemory (s : Store) (key value : String) : Store :=
  Store.mk (mapSet s.memory key value) s.persistent

/-- The `getMemory` operation. -/
def getMemory (s : Store) (key : String) : Option String :=
  mapGet s.memory key

/-- The `setPersistent` operation: the key is sanitized, the in-memory
persistent map is updated, and only then is the optional `envWriter`
invoked; its rejection is rethrown by the `await`, which the returned
`Except` captures. The map update survives either way. -/
def setPersistent (s : Store) (key value : String) (w : Option Writer) :
    Store × Except String Unit :=
  let sanitized := sanitizeKey key
  let s1 := Store.mk s.memory (mapSet s.persistent sanitized value)
  match w with
  | none => (s1, Except.ok ())
  | some f => (s1, f sanitized value)

/-- The `getPersistent` operation. -/
def getPersistent (s : Store) (key : String) : Option String :=
  mapGet s.persistent key

/-- The `get` operation: layered resolution, memory over persistent. -/
def get (s : Store) (key : String) : Option String :=
  match getMemory s key with
  | some v => some v
  | none =>
    match getPersistent s key with
    | some v => some v
    | none => none

/-- The `has` operation: spans both tiers. -/
def has (s : Store) (key : String) : Bool :=
  mapHas s.memory key || mapHas s.persistent key

/-- The `clearMemory` operation: clears only the session tier. -/
def clearMemory (s : Store) : Store :=
  Store.mk [] s.persistent

/-- The `getAll` operation: persistent entries overlaid by memory
entries of the same key. -/
def getAll (s : Store) : List (String × String) :=
  s.memory.foldl (fun acc kv => mapSet acc kv.1 kv.2)
    (s.persistent.foldl (fun acc kv => mapSet acc kv.1 kv.2) [])

/-- A durable-write collaborator whose promise always rejects. -/
def failWriter : Writer :=
  fun _ _ => Except.error "disk full"

/-! ### Association-list lemmas -/

theorem mapGet_mapSet_self (m : List (String × String)) (k v : String) :
    mapGet (mapSet m k v) k = some v := by
  induction m with
  | nil => simp [mapSet, mapGet]
  | cons kv rest ih =>
    obtain ⟨k0, v0⟩ := kv
    by_cases h : k0 = k
    · simp [mapSet, mapGet, h]
    · simp [mapSet, mapGet, h, ih]

theorem mapGet_mapSet_ne (m : List (String × String)) (k k' v : String)
    (h : k' ≠ k) : mapGet (mapSet m k v) k' = mapGet m k' := by
  induction m with
  | nil => simp [mapSet, mapGet, Ne.symm h]
  | cons kv rest ih =>
    obtain ⟨k0, v0⟩ := kv
    by_cases h0 : k0 = k
    · subst h0
      simp [mapSet, mapGet, Ne.symm h]
    · by_cases h1 : k0 = k'
      · subst h1
        simp [mapSet, mapGet, h0]
      · simp [mapSet, mapGet, h0, h1, ih]

/-! ### Store theorems -/

/-- C4: layered resolution. Setting the session tier then the
persistent tier leaves `get` returning the session value; after
`clearMemory` the persistent value shows through; and clearing never
touches the persistent tier. The general fall-through law is included:
`get` consults the persistent tier exactly when the session tier has no
entry. -/
theorem get_layered_precedence (s : Store) (k a b : String) (w : Option Writer)
    (hk : sanitizeKey k = k) :
    get ((setPersistent (setMemory s k a) k b w).1) k = some a ∧
    get (clearMemory ((setPersistent (setMemory s k a) k b w).1)) k = some b ∧
    (∀ t : Store, (clearMemory t).persistent = t.persistent) ∧
    (∀ (t : Store) (k' : String), getMemory t k' = none → get t k' = getPersistent t k') ∧
    (∀ (t : Store) (k' v : String), getMemory t k' = some v → get t k' = some v) := by
  have hmem : ∀ (w' : Option Writer) (t : Store) (k1 v1 : String),
      (setPersistent t k1 v1 w').1.memory = t.memory := by
    intro w' t k1 v1
    cases w' <;> simp [setPersistent]
  refine ⟨?_, ?_, ?_, ?_, ?_⟩
  · have h1 : getMemory ((setPersistent (setMemory s k a) k b w).1) k = some a := by
      rw [show getMemory ((setPersistent (setMemory s k a) k b w).1) k
            = mapGet ((setPersistent (setMemory s k a) k b w).1).memory k from rfl]
      rw [hmem w (setMemory s k a) k b]
      simpa [setMemory, getMemory] using mapGet_mapSet_self s.memory k a
    simp [get, h1]
  · have h2 : ((setPersistent (setMemory s k a) k b w).1).persistent
        = mapSet s.persistent k b := by
      cases w <;> simp [setPersistent, setMemory, hk]
    simp [get, clearMemory, getMemory, getPersistent, mapGet, h2,
      mapGet_mapSet_self]
  · intro t
    simp [clearMemory]
  · intro t k' h
    cases hp : getPersistent t k' <;> simp [get, h, hp]
  · intro t k' v h
    simp [get, h]

/-- C4 witness at the concrete scenario of the specification. -/
theorem get_layered_precedence_witness :
    get ((setPersistent (setMemory (Store.mk [] []) "k" "A") "k" "B" none).1) "k" = some "A" ∧
    get (clearMemory ((setPersistent (setMemory (Store.mk [] []) "k" "A") "k" "B" none).1)) "k"
      = some "B" :=
  And.intro
    (get_layered_precedence (Store.mk [] []) "k" "A" "B" none (by decide)).1
    (get_layered_precedence (Store.mk [] []) "k" "A" "B" none (by decide)).2.1

/-- C5: an explicitly stored empty string is present and retrievable,
and in every store state existence (`has`) coincides with `get` being
defined, so the empty value is never conflated with absence by any
operation. -/
theorem empty_value_distinct_from_absent :
    (∀ (s : Store) (k : String),
      has (setMemory s k "") k = true ∧ get (setMemory s k "") k = some "") ∧
    (∀ (s : Store) (k : String), has s k = (get s k).isSome) := by
  constructor
  · intro s k
    have h : getMemory (setMemory s k "") k = some "" := by
      simpa [setMemory, getMemory] using mapGet_mapSet_self s.memory k ""
    constructor
    · simp [has, mapHas, setMemory, getMemory] at h ⊢
      simp [show mapGet (mapSet s.memory k "") k = some "" from h]
    · simp [get, h]
  · intro s k
    unfold has get getMemory getPersistent mapHas
    cases hm : mapGet s.memory k <;> cases hp : mapGet s.persistent k <;> simp [hm, hp]

/-- C10 counterexample: for a key containing a line break, the store
records the value under the sanitized key, so a later `getPersistent`
with the original key does not observe the written value even though
the write failure was propagated. -/
theorem setPersistent_newline_key_counterexample :
    (setPersistent (Store.mk [] []) "a\nb" "v" (some failWriter)).2
      = Except.error "disk full" ∧
    getPersistent ((setPersistent (Store.mk [] []) "a\nb" "v" (some failWriter)).1) "a\nb"
      = none ∧
    getPersistent ((setPersistent (Store.mk [] []) "a\nb" "v" (some failWriter)).1) "ab"
      = some "v" := by
  refine ⟨rfl, ?_, ?_⟩ <;> decide

/-- C10 amended: when the durable-write collaborator rejects, the
failure is propagated to the caller, but the in-memory persistent tier
was already updated before the collaborator ran, so for a key unchanged
by sanitization (and not shadowed in the session tier) both
`getPersistent` and `get` observe the new value although the call
failed. -/
theorem setPersistent_failure_not_atomic (s : Store) (k v msg : String) (w : Writer)
    (hk : sanitizeKey k = k) (hm : getMemory s k = none)
    (hw : w k v = Except.error msg) :
    (setPersistent s k v (some w)).2 = Except.error msg ∧
    getPersistent ((setPersistent s k v (some w)).1) k = some v ∧
    get ((setPersistent s k v (some w)).1) k = some v := by
  have h1 : (setPersistent s k v (some w)).1
      = Store.mk s.memory (mapSet s.persistent k v) := by
    simp [setPersistent, hk]
  have h2 : getPersistent ((setPersistent s k v (some w)).1) k = some v := by
    rw [h1]
    simpa [getPersistent] using mapGet_mapSet_self s.persistent k v
  refine ⟨?_, h2, ?_⟩
  · simp [setPersistent, hk, hw]
  · have hm1 : getMemory ((setPersistent s k v (some w)).1) k = none := by
      rw [h1]
      simpa [getMemory] using hm
    simp [get, hm1, h2]

/-- C10 amended witness. -/
theorem setPersistent_failure_not_atomic_witness :
    (setPersistent (Store.mk [] []) "token" "abc" (some failWriter)).2
      = Except.error "disk full" ∧
    getPersistent ((setPersistent (Store.mk [] []) "token" "abc" (some failWriter)).1) "token"
      = some "abc" ∧
    get ((setPersistent (Store.mk [] []) "token" "abc" (some failWriter)).1) "token"
      = some "abc" :=
  setPersistent_failure_not_atomic (Store.mk [] []) "token" "abc" "disk full" failWriter
    (by decide) (by decide) rfl

/-! ## Sandboxed script executor (src/execution/script-executor.ts)

`executeScript` runs a script inside a `node:vm` context whose sandbox
object literal holds exactly the keys `client`, `response` and
`console`. The vm engine itself is external; its observable outcome is
either normal completion, a thrown error carrying a message, or a
wall-clock timeout carrying the engine's message — and the `catch`
block of `executeScript` receives nothing but that message. The
returned record `ExecuteResult` has a `success` flag and an optional
`error` string and no other field. -/

/-- The `ExecuteResult` record of the source: `success` plus an
optional error message. -/
structure ExecuteResult where
  success : Bool
  error : Option String
deriving Repr, DecidableEq

/-- The pattern Node's vm timeout message contains, tested by
`errorMessage.includes("timed out")`. -/
def timeoutPat : List Char :=
  ("timed out").data

/-- The three unexpected-end-of-input patterns of the normalization
guard (`missing )`, `missing ]`, `missing \x7d`). -/
def missingParenPat : List Char :=
  ("missing )").data

/-- Second pattern of the normalization guard. -/
def missingBracketPat : List Char :=
  ("missing ]").data

/-- Third pattern of the normalization guard. -/
def missingBracePat : List Char :=
  ("missing \x7d").data

/-- Earliest match position of the regex `missing [)\]\x7d]`, the
left end of the region `replace` rewrites. -/
def findMissing : List Char → Option Nat
  | [] => none
  | c :: rest =>
    if hasPrefixL missingParenPat (c :: rest) || hasPrefixL missingBracketPat (c :: rest)
        || hasPrefixL missingBracePat (c :: rest) then some 0
    else (findMissing rest).map (· + 1)

/-- The tail of a string from its first newline on: the region the
regex quantifier `.*` (which does not cross newlines) leaves intact. -/
def dropToNewline (cs : List Char) : List Char :=
  cs.dropWhile (fun c => c != '\n')

/-- JS `errorMessage.replace(/missing [)\]\x7d].*/, "Unexpected end of
input")`: the first match extends from the pattern to the end of its
line and is replaced by the canonical phrase. -/
def normalizeMissing (cs : List Char) : List Char :=
  match findMissing cs with
  | none => cs
  | some i => cs.take i ++ ("Unexpected end of input").data ++ dropToNewline (cs.drop i)

/-- The `catch` block of `executeScript`: timeout wording is rewritten
first, otherwise the unexpected-end-of-input variants are normalized,
otherwise the message passes through; `success` is always false. -/
def catchError (msg : String) : ExecuteResult :=
  if occursIn timeoutPat msg.data then
    ExecuteResult.mk false (some (String.mk (replaceFirst msg.data timeoutPat ("timeout").data)))
  else if occursIn missingParenPat msg.data || occursIn missingBracePat msg.data
      || occursIn missingBracketPat msg.data then
    ExecuteResult.mk false (some (String.mk (normalizeMissing msg.data)))
  else
    ExecuteResult.mk false (some msg)

/-- Every result the catch block builds is a failure. -/
theorem catchError_success (m : String) : (catchError m).success = false := by
  unfold catchError
  split
  · rfl
  · split <;> rfl

/-- What the vm engine reports back to `executeScript` for one run: the
`catch` block sees only the message, whichever of the last two cases
occurred. -/
inductive RawOutcome where
  | ok : RawOutcome
  | threw : String → RawOutcome
  | timedOut : String → RawOutcome
deriving Repr, DecidableEq

/-- The result `executeScript` returns for each engine outcome. -/
def executeScriptResult : RawOutcome → ExecuteResult
  | RawOutcome.ok => ExecuteResult.mk true none
  | RawOutcome.threw m => catchError m
  | RawOutcome.timedOut m => catchError m

/-- The three failure categories the specification says a caller can
branch on. -/
inductive FailureKind where
  | timeoutKind : FailureKind
  | runtimeKind : FailureKind
  | syntaxKind : FailureKind
deriving Repr, DecidableEq

/-- The message Node's vm produces when a script exceeds its timeout. -/
def nodeTimeoutMsg : String :=
  "Script execution timed out after 5000ms"

/-- C3 counterexample: no function of the returned `ExecuteResult` can
recover the failure category, because a genuine timeout and a script
that throws an error with the same text produce identical results —
the record carries no kind field, only the message. -/
theorem no_machine_distinguishable_kind :
    ¬ ∃ classify : ExecuteResult → FailureKind,
      (∀ m : String,
        classify (executeScriptResult (RawOutcome.timedOut m)) = FailureKind.timeoutKind) ∧
      (∀ m : String,
        classify (executeScriptResult (RawOutcome.threw m)) = FailureKind.runtimeKind) := by
  rintro ⟨f, h1, h2⟩
  have a := h1 nodeTimeoutMsg
  have b := h2 nodeTimeoutMsg
  have hc : executeScriptResult (RawOutcome.timedOut nodeTimeoutMsg)
      = executeScriptResult (RawOutcome.threw nodeTimeoutMsg) := rfl
  rw [hc] at a
  exact FailureKind.noConfusion (a.symm.trans b)

/-- C3 amended: every failure result has `success = false` and carries
a human-readable message; the timeout wording is rewritten to contain
the canonical timeout term; but the result of a timeout and of a throw
with the same underlying text coincide, so the category is only
encoded (ambiguously) in the message, not as a machine field. -/
theorem failure_category_via_message (m : String) :
    (executeScriptResult (RawOutcome.timedOut m)).success = false ∧
    (executeScriptResult (RawOutcome.threw m)).success = false ∧
    executeScriptResult (RawOutcome.timedOut m) = executeScriptResult (RawOutcome.threw m) ∧
    (occursIn timeoutPat m.data = true →
      (executeScriptResult (RawOutcome.timedOut m)).error
        = some (String.mk (replaceFirst m.data timeoutPat ("timeout").data))) := by
  refine ⟨catchError_success m, catchError_success m, rfl, ?_⟩
  intro h
  simp [executeScriptResult, catchError, h]

/-- C3 amended witness: the engine's timeout message is rewritten to
the canonical timeout wording. -/
theorem failure_category_via_message_witness :
    (executeScriptResult (RawOutcome.timedOut nodeTimeoutMsg)).error
      = some "Script execution timeout after 5000ms" := by
  rw [(failure_category_via_message nodeTimeoutMsg).2.2.2 (by decide)]
  rfl

/-! ### The sandbox surface and the client capability wiring

The sandbox object literal of `executeScript` binds `client`,
`response` and `console`. A script is modelled operationally by the
effects reachable through that surface: referencing a bare name (which
the vm resolves against the sandbox, throwing the JS
ReferenceError `<name> is not defined` when absent), `client.global.set`
(wired by `createClientAPI` to `store.setMemory`), and
`client.environment.set` (wired to `void store.setPersistent(...)`,
discarding the returned promise), plus an explicit throw. -/

/-- The keys of the sandbox object literal (lines 37–41 of the
executor source). -/
def sandboxKeys : List String :=
  ["client", "response", "console"]

/-- One observable step of a handler script. -/
inductive ScriptOp where
  | refName : String → ScriptOp
  | globalSet : String → String → ScriptOp
  | envSet : String → String → ScriptOp
  | throwErr : String → ScriptOp
deriving Repr, DecidableEq

/-- Did the collaborator's promise reject? -/
def exceptFailed : Except String Unit → Bool
  | Except.ok _ => false
  | Except.error _ => true

/-- Run the steps of a script against the store. Returns the final
store, the thrown message if the script threw, and whether some
durable write was rejected (an event of the collaborator that the
`void` in `createClientAPI` hides from the script and the engine). -/
def runOps : List ScriptOp → Store → Option Writer → Store × Option String × Bool
  | [], s, _ => (s, none, false)
  | op :: rest, s, w =>
    match op with
    | ScriptOp.refName n =>
      if sandboxKeys.contains n then runOps rest s w
      else (s, some (n ++ " is not defined"), false)
    | ScriptOp.globalSet k v => runOps rest (setMemory s k v) w
    | ScriptOp.envSet k v =>
      let r := setPersistent s k v w
      let cont := runOps rest r.1 w
      (cont.1, cont.2.1, cont.2.2 || exceptFailed r.2)
    | ScriptOp.throwErr m => (s, some m, false)

/-- The executor: empty script text is a trivial success; otherwise the
script runs in the sandbox and a thrown message goes through the
`catch` block. -/
def executeScriptModel (script : List ScriptOp) (s : Store) (w : Option Writer) :
    Store × ExecuteResult × Bool :=
  if script.isEmpty then (s, ExecuteResult.mk true none, false)
  else
    let r := runOps script s w
    match r.2.1 with
    | none => (r.1, ExecuteResult.mk true none, r.2.2)
    | some m => (r.1, catchError m, r.2.2)

/-- C2 counterexample: the sandbox binds a third name, `console`; a
script referencing it succeeds instead of failing with an undefined
reference, so the surface is not exactly the pair named by the
specification. -/
theorem sandbox_binds_console :
    (executeScriptModel [ScriptOp.refName ("console")] (Store.mk [] []) none).2.1
      = ExecuteResult.mk true none ∧
    sandboxKeys.contains ("console") = true ∧
    ¬ (("console" : String) ∈ (["client", "response"] : List String)) := by
  refine ⟨rfl, rfl, by decide⟩

/-- C2 amended: the sandbox binds exactly the three names `client`,
`response` and `console`; a script referencing any other name fails as
an ordinary undefined reference whose message (after the catch block's
normalization) reports the name as not defined. -/
theorem sandbox_surface (n : String) (s : Store) (w : Option Writer)
    (hn : sandboxKeys.contains n = false) :
    (∀ m : String,
      sandboxKeys.contains m = true ↔ (m = "client" ∨ m = "response" ∨ m = "console")) ∧
    (executeScriptModel [ScriptOp.refName n] s w).2.1 = catchError (n ++ " is not defined") ∧
    (executeScriptModel [ScriptOp.refName n] s w).2.1.success = false := by
  have hnotmem : n ∉ sandboxKeys := by
    simpa using hn
  have hrun : (executeScriptModel [ScriptOp.refName n] s w).2.1
      = catchError (n ++ " is not defined") := by
    simp [executeScriptModel, runOps, hnotmem]
  refine ⟨?_, hrun, by rw [hrun]; exact catchError_success _⟩
  intro m
  simp [sandboxKeys, List.contains]

/-- C2 amended witness at the name `process`. -/
theorem sandbox_surface_witness :
    sandboxKeys.contains "client" = true ∧
    (executeScriptModel [ScriptOp.refName ("process")] (Store.mk [] []) none).2.1.success
      = false :=
  And.intro
    (((sandbox_surface "process" (Store.mk [] []) none (by decide)).1 "client").mpr
      (Or.inl rfl))
    (sandbox_surface "process" (Store.mk [] []) none (by decide)).2.2

/-- C1 counterexample: a script whose only effect is a persistent-tier
`client.environment.set` reports overall success even though the
durable-write collaborator rejected the write — the `void` in
`createClientAPI` discards the promise, so the failure never reaches
the engine. -/
theorem envSet_reports_success_despite_write_failure :
    (executeScriptModel [ScriptOp.envSet ("token") ("abc")] (Store.mk [] [])
        (some failWriter)).2.1
      = ExecuteResult.mk true none ∧
    (executeScriptModel [ScriptOp.envSet ("token") ("abc")] (Store.mk [] [])
        (some failWriter)).2.2 = true :=
  And.intro rfl rfl

/-- C1 amended: `client.environment.set` is fire-and-forget — whenever
the collaborator rejects the sanitized write, the execution still
reports success, while the in-memory persistent tier already holds the
new value. -/
theorem envSet_fire_and_forget (k v msg : String) (s : Store) (w : Writer)
    (hw : w (sanitizeKey k) v = Except.error msg) :
    (executeScriptModel [ScriptOp.envSet k v] s (some w)).2.1 = ExecuteResult.mk true none ∧
    (executeScriptModel [ScriptOp.envSet k v] s (some w)).2.2 = true ∧
    getPersistent ((executeScriptModel [ScriptOp.envSet k v] s (some w)).1) (sanitizeKey k)
      = some v := by
  have hstate : (executeScriptModel [ScriptOp.envSet k v] s (some w)).1
      = Store.mk s.memory (mapSet s.persistent (sanitizeKey k) v) := by
    simp [executeScriptModel, runOps, setPersistent]
  refine ⟨?_, ?_, ?_⟩
  · simp [executeScriptModel, runOps]
  · simp [executeScriptModel, runOps, setPersistent, hw, exceptFailed]
  · rw [hstate]
    simpa [getPersistent] using mapGet_mapSet_self s.persistent (sanitizeKey k) v

/-- C1 amended witness. -/
theorem envSet_fire_and_forget_witness :
    (executeScriptModel [ScriptOp.envSet ("token") ("abc")] (Store.mk [] [])
        (some failWriter)).2.2 = true ∧
    getPersistent ((executeScriptModel [ScriptOp.envSet ("token") ("abc")] (Store.mk [] [])
        (some failWriter)).1) (sanitizeKey "token") = some "abc" :=
  And.intro
    (envSet_fire_and_forget "token" "abc" "disk full" (Store.mk [] []) failWriter rfl).2.1
    (envSet_fire_and_forget "token" "abc" "disk full" (Store.mk [] []) failWriter rfl).2.2

/-! ## Redaction engine (redact.ts)

Structured bodies are JSON values; `redactObject`'s `depth` parameter,
which only feeds the `depth >= 10` guard and is incremented on every
recursive call, is embedded as the remaining recursion budget
`10 - depth` so that the definition is structurally recursive. -/

/-- A parsed JSON value (own-enumerable fields only, as produced by
`JSON.parse`, so prototype pollution is out of the picture by
construction). -/
inductive Json where
  | str : String → Json
  | num : Int → Json
  | bool : Bool → Json
  | null : Json
  | arr : List Json → Json
  | obj : List (String × Json) → Json

/-- Key normalization: lowercase and strip hyphens/underscores,
modelling `key.toLowerCase().replace(/[-_]/g, "")` (ASCII lowering —
the only case the redaction keys exercise). -/
def normalizeKey (key : String) : String :=
  String.mk ((key.data.map Char.toLower).filter (fun c => c != '-' && c != '_'))

/-- Does the normalized key contain some normalized pattern as a
substring? This is `normalizedPatterns.some((p) =>
normalizedKey.includes(p))`. -/
def matchesKey (key : String) (patterns : List String) : Bool :=
  patterns.any (fun p => occursIn (normalizeKey p).data (normalizeKey key).data)

/-- JS `typeof value === "object" && value !== null`: arrays and
objects qualify, `null` is explicitly excluded by the source. -/
def isObjectLike : Json → Bool
  | Json.arr _ => true
  | Json.obj _ => true
  | _ => false

/-- The recursive worker of the redaction engine with the remaining
budget `g = 10 - depth`: budget exhausted (`depth >= 10`) returns the
value unmodified; arrays are mapped element-wise; object fields with a
matching key are masked, object-like values are descended, and
everything else passes through. -/
def redactObjectGas : Nat → Json → List String → Json
  | 0, j, _ => j
  | g + 1, j, patterns =>
    match j with
    | Json.arr xs => Json.arr (xs.map (fun x => redactObjectGas g x patterns))
    | Json.obj fields =>
      Json.obj (fields.map (fun kv =>
        if matchesKey kv.1 patterns then (kv.1, Json.str ("****"))
        else if isObjectLike kv.2 then (kv.1, redactObjectGas g kv.2 patterns)
        else kv))
    | other => other

/-- `redactObject(obj, patterns, depth)` of the source. -/
def redactObject (j : Json) (patterns : List String) (depth : Nat) : Json :=
  redactObjectGas (10 - depth) j patterns

/-- `redactJsonBody` on an already-structured body (the string branch
of the source parses with the platform JSON parser and then applies
the same `redactObject` at depth 0): an empty pattern list is a
no-op. -/
def redactJsonBody (body : Json) (patterns : List String) : Json :=
  if patterns.isEmpty then body
  else redactObject body patterns 0

/-- A body nested under `m` wrapper objects with key `a`. -/
def nest : Nat → Json → Json
  | 0, j => j
  | m + 1, j => Json.obj [("a", nest m j)]

/-- A value that is not object-like is returned unmodified at any
budget. -/
theorem redactObjectGas_nonObject (g : Nat) (j : Json) (patterns : List String)
    (h : isObjectLike j = false) : redactObjectGas g j patterns = j := by
  cases g with
  | zero => rfl
  | succ g => cases j <;> simp_all [isObjectLike, redactObjectGas]

/-- Redaction commutes with non-matching wrappers: descending `m`
wrapper levels spends `m` units of budget. -/
theorem redactObjectGas_nest (patterns : List String)
    (ha : matchesKey ("a") patterns = false) :
    ∀ (m g : Nat) (core : Json), m ≤ g →
      redactObjectGas g (nest m core) patterns
        = nest m (redactObjectGas (g - m) core patterns) := by
  intro m
  induction m with
  | zero =>
    intro g core _
    simp [nest]
  | succ m ih =>
    intro g core hle
    cases g with
    | zero => omega
    | succ g =>
      have hmg : m ≤ g := by omega
      cases hobj : isObjectLike (nest m core) with
      | true =>
        simp only [nest, redactObjectGas, List.map, ha, Bool.false_eq_true, if_false, hobj,
          if_true]
        rw [ih g core hmg]
        simp [Nat.succ_sub_succ]
      | false =>
        cases m with
        | succ m' => simp [nest, isObjectLike] at hobj
        | zero =>
          simp only [nest] at hobj ⊢
          simp only [redactObjectGas, List.map, ha, Bool.false_eq_true, if_false, hobj]
          rw [redactObjectGas_nonObject (g + 1 - 1) core patterns hobj]

/-- C8: the traversal cap is inclusive at depth 10 — a matching key on
the object nested under 9 wrappers (i.e. a key at nesting level 10) is
masked, while one wrapper further the budget is exhausted and the
whole subtree (the value at depth 11) is returned unmodified. -/
theorem redact_depth_boundary (patterns : List String) (k v : String)
    (hmatch : matchesKey k patterns = true)
    (ha : matchesKey ("a") patterns = false) :
    redactJsonBody (nest 9 (Json.obj [(k, Json.str v)])) patterns
      = nest 9 (Json.obj [(k, Json.str ("****"))]) ∧
    redactJsonBody (nest 10 (Json.obj [(k, Json.str v)])) patterns
      = nest 10 (Json.obj [(k, Json.str v)]) := by
  have hne : patterns.isEmpty = false := by
    cases patterns with
    | nil => simp [matchesKey] at hmatch
    | cons p ps => rfl
  constructor
  · rw [show redactJsonBody (nest 9 (Json.obj [(k, Json.str v)])) patterns
        = redactObjectGas 10 (nest 9 (Json.obj [(k, Json.str v)])) patterns by
      simp [redactJsonBody, hne, redactObject]]
    rw [redactObjectGas_nest patterns ha 9 10 (Json.obj [(k, Json.str v)]) (by omega)]
    simp [redactObjectGas, hmatch]
  · rw [show redactJsonBody (nest 10 (Json.obj [(k, Json.str v)])) patterns
        = redactObjectGas 10 (nest 10 (Json.obj [(k, Json.str v)])) patterns by
      simp [redactJsonBody, hne, redactObject]]
    rw [redactObjectGas_nest patterns ha 10 10 (Json.obj [(k, Json.str v)]) (by omega)]
    rfl

/-- C8 witness at the password example of the specification. -/
theorem redact_depth_boundary_witness :
    redactJsonBody (nest 9 (Json.obj [("password", Json.str "x")])) ["password"]
      = nest 9 (Json.obj [("password", Json.str ("****"))]) ∧
    redactJsonBody (nest 10 (Json.obj [("password", Json.str "x")])) ["password"]
      = nest 10 (Json.obj [("password", Json.str "x")]) :=
  redact_depth_boundary ["password"] "password" "x" (by decide) (by decide)

/-! ### URL redaction

`redactUrl` delegates parsing to the WHATWG `URL` collaborator (not
part of the repository); the collaborator is modelled for the ordinary
`scheme://[userinfo@]host/path?query#fragment` shape, with a parse
failure standing in for the constructor throwing. The redaction logic
itself — empty pattern short-circuit, the try/catch returning the
input on failure, clearing the userinfo, masking matching
query-parameter values with the fixed mask — follows the source. -/

/-- The components of a parsed URL. -/
structure UrlModel where
  scheme : String
  userinfo : Option String
  host : String
  path : String
  query : Option (List (String × String))
  fragment : Option String
deriving Repr, DecidableEq

/-- Split at the first occurrence of `c`, dropping the separator. -/
def splitAtFirstChar (c : Char) (cs : List Char) : Option (List Char × List Char) :=
  match firstIdx [c] cs with
  | none => none
  | some i => some (cs.take i, cs.drop (i + 1))

/-- Split at the last occurrence of `c`, dropping the separator. -/
def splitAtLastChar (c : Char) (cs : List Char) : Option (List Char × List Char) :=
  match lastIdxChar c cs with
  | none => none
  | some i => some (cs.take i, cs.drop (i + 1))

/-- One `key=value` query pair (a pair without `=` keeps an empty
value, as in `URLSearchParams`). -/
def parseQueryPair (cs : List Char) : String × String :=
  match splitAtFirstChar '=' cs with
  | none => (String.mk cs, "")
  | some kv => (String.mk kv.1, String.mk kv.2)

/-- The query string split on `&`. -/
def parseQuery (cs : List Char) : List (String × String) :=
  (splitOnChar '&' cs).map parseQueryPair

/-- Model of the WHATWG URL parser for the common shape: scheme up to
`://`, optional fragment after the first `#`, optional query after the
first `?`, authority up to the first `/`, optional userinfo before the
last `@` of the authority. Anything without `://` or without a host
stands for an input the URL constructor rejects. -/
def parseUrl (s : String) : Option UrlModel :=
  match firstIdx ("://").data s.data with
  | none => none
  | some i =>
    let scheme := s.data.take i
    let rest := s.data.drop (i + 3)
    let afterHash :=
      match splitAtFirstChar '#' rest with
      | none => (rest, (none : Option String))
      | some bf => (bf.1, some (String.mk bf.2))
    let afterQ :=
      match splitAtFirstChar '?' afterHash.1 with
      | none => (afterHash.1, (none : Option (List (String × String))))
      | some bq => (bq.1, some (parseQuery bq.2))
    let auPath :=
      match firstIdx ['/'] afterQ.1 with
      | none => (afterQ.1, ([] : List Char))
      | some j => (afterQ.1.take j, afterQ.1.drop j)
    let uiHost :=
      match splitAtLastChar '@' auPath.1 with
      | none => ((none : Option String), auPath.1)
      | some uh => (some (String.mk uh.1), uh.2)
    if scheme.isEmpty || uiHost.2.isEmpty then none
    else
      some (UrlModel.mk (String.mk scheme) uiHost.1 (String.mk uiHost.2)
        (String.mk auPath.2) afterQ.2 afterHash.2)

/-- Query serialization of the URL collaborator. -/
def serializeQuery (q : List (String × String)) : String :=
  String.intercalate "&" (q.map (fun kv => kv.1 ++ "=" ++ kv.2))

/-- `parsed.toString()` of the URL collaborator. -/
def serializeUrl (u : UrlModel) : String :=
  u.scheme ++ "://" ++
  (match u.userinfo with
   | none => ""
   | some ui => ui ++ "@") ++
  u.host ++ u.path ++
  (match u.query with
   | none => ""
   | some q => "?" ++ serializeQuery q) ++
  (match u.fragment with
   | none => ""
   | some f => "#" ++ f)

/-- The loop over `searchParams`: values of matching parameter names
are replaced by the fixed mask, all other pairs stay untouched. -/
def maskQueryPairs (patterns : List String) (q : List (String × String)) :
    List (String × String) :=
  q.map (fun kv => if matchesKey kv.1 patterns then (kv.1, ("****" : String)) else kv)

/-- Masking lifted to an optional query component. -/
def maskQuery (patterns : List String) : Option (List (String × String)) →
    Option (List (String × String))
  | none => none
  | some q => some (maskQueryPairs patterns q)

/-- `redactUrl` of the source: empty patterns short-circuit, a parse
failure returns the input unchanged (the catch branch), userinfo is
cleared when present, and matching query values are masked before
re-serialization. -/
def redactUrl (url : String) (patterns : List String) : String :=
  if patterns.isEmpty then url
  else
    match parseUrl url with
    | none => url
    | some u =>
      let u1 :=
        match u.userinfo with
        | some _ => UrlModel.mk u.scheme none u.host u.path u.query u.fragment
        | none => u
      serializeUrl (UrlModel.mk u1.scheme u1.userinfo u1.host u1.path
        (maskQuery patterns u1.query) u1.fragment)

/-- C9: an empty pattern set is a no-op; non-parseable input is
returned unchanged rather than raising; on every parsed URL the result
keeps the scheme, host, path and fragment verbatim, strips any
userinfo, and masks exactly the query values whose name matches; and
the concrete example of the specification. -/
theorem redactUrl_spec :
    (∀ url : String, redactUrl url [] = url) ∧
    (∀ (url : String) (patterns : List String),
      parseUrl url = none → redactUrl url patterns = url) ∧
    (∀ (url : String) (patterns : List String) (u : UrlModel),
      patterns.isEmpty = false → parseUrl url = some u →
      redactUrl url patterns
        = serializeUrl (UrlModel.mk u.scheme none u.host u.path
            (maskQuery patterns u.query) u.fragment)) ∧
    redactUrl ("https://a.com/p?token=x&id=5") ["token"]
      = "https://a.com/p?token=****&id=5" := by
  refine ⟨fun url => rfl, ?_, ?_, by decide⟩
  · intro url patterns h
    by_cases he : patterns.isEmpty = true
    · simp [redactUrl, he]
    · simp [redactUrl, he, h]
  · intro url patterns u hne hp
    obtain ⟨sc, ui, ho, pa, q, fr⟩ := u
    cases ui <;> simp [redactUrl, hne, hp]

/-- C9 witness: a URL with embedded credentials and a fragment has the
credentials stripped, the matching query value masked, and path and
fragment preserved. -/
theorem redactUrl_spec_witness :
    redactUrl ("https://user:pw@a.com/p?token=x&id=5#frag") ["token"]
      = "https://a.com/p?token=****&id=5#frag" := by
  rw [(redactUrl_spec.2.2.1 ("https://user:pw@a.com/p?token=x&id=5#frag") ["token"]
    (UrlModel.mk "https" (some "user:pw") "a.com" "/p"
      (some [("token", "x"), ("id", "5")]) (some "frag")) (by decide) (by decide))]
  rfl

/-! ## Response-handler block extractor
(src/parsers/response-handler-parser.ts)

The file content is split on newlines; a line whose trimmed form starts
with the marker character and contains the opening delimiter starts a
block; the inner loop accumulates lines (joined by newlines) until a
line containing the closing delimiter, diagnosing a malformed closing
marker when a line has a brace more than one position after its last
percent sign; extraction then takes the substring of the accumulated
buffer strictly between the first opening and first closing delimiter
and trims it. The `new Function(script)` syntax probe is an external
collaborator, passed in as `chk` (`none` = the script parses, `some m`
= the SyntaxError message). The outer while loop is embedded with a
fuel argument; called with one unit per line it can never run out,
since every iteration consumes at least one line. -/

/-- The opening delimiter sequence. -/
def openMark : List Char :=
  ("\x7b%").data

/-- The closing delimiter sequence. -/
def closeMark : List Char :=
  ("%\x7d").data

/-- `trimmed.startsWith(">") && trimmed.includes("\x7b%")` — does this
line start a handler block? (Also exported by the source as
`isResponseHandlerLine`.) -/
def isResponseHandlerLine (l : List Char) : Bool :=
  hasPrefixL ['>'] (jsTrimL l) && occursIn openMark (jsTrimL l)

/-- The malformed-closing-marker test of the inner loop: the line
contains a percent sign and a brace, and the first brace at or after
the line's last percent sign sits more than one position after it. -/
def malformedLine (l : List Char) : Bool :=
  if l.contains '%' && l.contains '\x7d' then
    match lastIdxChar '%' l with
    | none => false
    | some p =>
      match idxCharFrom '\x7d' l p with
      | none => false
      | some b => decide (p < b) && decide (1 < b - p)
  else false

/-- Outcome of the line-accumulating inner loop: a closing line was
found (with the accumulated buffer, the number of lines consumed and
the remaining lines), a malformed closing marker was diagnosed, or the
input ended first. -/
inductive CollectOut where
  | closed : List Char → Nat → List (List Char) → CollectOut
  | malformedStop : CollectOut
  | missingStop : CollectOut
deriving Repr, DecidableEq

/-- The inner accumulation loop (`for j` in the source): each line is
appended to the buffer; a line containing the closing delimiter closes
the block; otherwise the malformed test runs; a newline joins the
buffer to the next line except after the file's final line. -/
def collectAux (buf : List Char) (consumed : Nat) : List (List Char) → CollectOut
  | [] => CollectOut.missingStop
  | l :: ls =>
    if occursIn closeMark l then CollectOut.closed (buf ++ l) (consumed + 1) ls
    else if malformedLine l then CollectOut.malformedStop
    else
      collectAux (if ls.isEmpty then buf ++ l else buf ++ l ++ ['\n']) (consumed + 1) ls

/-- The `ParsedHandler` record of the source. -/
structure ParsedHandler where
  script : String
  startLine : Nat
  language : String
deriving Repr, DecidableEq

/-- The `ParseResult` record of the source (optional fields become
options). -/
structure ParseResult where
  hasHandler : Bool
  script : Option String
  handlers : Option (List ParsedHandler)
  error : Option String
deriving Repr, DecidableEq

/-- Diagnostic for a closing delimiter never found before end of
input. -/
def missingMsg : String :=
  "malformed response handler: missing %\x7d"

/-- Diagnostic for a malformed closing marker. -/
def malformedMsg : String :=
  "malformed response handler: invalid closing marker"

/-- Diagnostic for markers that extraction cannot locate. -/
def invalidMarkersMsg : String :=
  "malformed response handler: invalid markers"

/-- Diagnostic for a closing delimiter at or before the opening one. -/
def outOfOrderMsg : String :=
  "malformed response handler: markers out of order"

/-- Prefix of the syntax-probe diagnostic. -/
def syntaxErrPre : String :=
  "syntax error in response handler: "

/-- The return branches at the bottom of `parseResponseHandler`. -/
def finishParse (acc : List ParsedHandler) (err : Option String) : ParseResult :=
  match err with
  | some e => ParseResult.mk true none none (some e)
  | none =>
    match acc with
    | [] => ParseResult.mk false (some "") none none
    | [h] => ParseResult.mk true (some h.script) none none
    | hs => ParseResult.mk true none (some hs) none

/-- The outer while loop: scan for a handler-start line, run the inner
loop, extract between the first opening and first closing delimiter of
the buffer, trim, run the syntax probe, and continue after the closing
line. -/
def parseLoop (chk : String → Option String) :
    Nat → List (List Char) → Nat → List ParsedHandler → ParseResult
  | 0, _, _, acc => finishParse acc none
  | fuel + 1, lines, idx, acc =>
    match lines with
    | [] => finishParse acc none
    | l :: ls =>
      if isResponseHandlerLine l then
        match collectAux [] 0 (l :: ls) with
        | CollectOut.missingStop => finishParse acc (some missingMsg)
        | CollectOut.malformedStop => finishParse acc (some malformedMsg)
        | CollectOut.closed buf consumed rest =>
          match firstIdx openMark buf, firstIdx closeMark buf with
          | none, _ => finishParse acc (some invalidMarkersMsg)
          | some _, none => finishParse acc (some invalidMarkersMsg)
          | some sIdx, some eIdx =>
            if eIdx ≤ sIdx then finishParse acc (some outOfOrderMsg)
            else
              match chk (String.mk (jsTrimL (jsSubstringL buf (sIdx + 2) eIdx))) with
              | some m => finishParse acc (some (syntaxErrPre ++ m))
              | none =>
                parseLoop chk fuel rest (idx + consumed)
                  (acc ++ [ParsedHandler.mk
                    (String.mk (jsTrimL (jsSubstringL buf (sIdx + 2) eIdx))) idx
                    ("javascript")])
      else parseLoop chk fuel ls (idx + 1) acc

/-- `parseResponseHandler(content, startIndex)` of the source,
parameterized over the syntax probe `chk`. -/
def parseResponseHandler (content : String) (chk : String → Option String)
    (startIndex : Nat) : ParseResult :=
  parseLoop chk (splitNL content.data).length (splitNL content.data) startIndex []

/-- Join lines with newlines (inverse of the split, for building
request-definition text from its lines). -/
def joinLines : List String → String
  | [] => ""
  | [l] => l
  | l :: rest => l ++ "\n" ++ joinLines rest

/-- A line showing the closing delimiter's two characters with only
whitespace inserted between them — the visually-similar pattern the
specification describes for the malformed diagnostic. -/
def wsThenClose : List Char → Bool
  | [] => false
  | c :: rest => if isJsWS c then wsThenClose rest else c == '\x7d'

/-- Does the pattern percent–whitespace⁺–brace start at this position? -/
def wsGapAt : List Char → Bool
  | c :: d :: rest => c == '%' && isJsWS d && wsThenClose (d :: rest)
  | _ => false

/-- Does the line contain percent–whitespace⁺–brace anywhere? -/
def hasWsGapClose : List Char → Bool
  | [] => false
  | c :: rest => wsGapAt (c :: rest) || hasWsGapClose rest

/-- C6 counterexample: a block with a perfectly valid marker pair whose
script contains a modulo expression and a closing brace on one line is
rejected with the malformed-closing-marker diagnostic instead of
having its (non-empty) trimmed script text recovered. -/
theorem parse_roundtrip_counterexample :
    parseResponseHandler ("> \x7b%\nconst y = a % b; if (y) \x7b z() \x7d\n%\x7d")
        (fun _ => none) 0
      = ParseResult.mk true none none (some malformedMsg) ∧
    jsTrim ("\nconst y = a % b; if (y) \x7b z() \x7d\n")
      = "const y = a % b; if (y) \x7b z() \x7d" := by
  constructor <;> decide

/-- C7 counterexample: the malformed-closing-marker diagnostic fires on
an input none of whose lines shows the percent–whitespace–brace
pattern — any characters between the line's last percent sign and the
following brace trigger it, not only whitespace. -/
theorem malformed_without_whitespace_counterexample :
    parseResponseHandler ("> \x7b%\nconst r = n%m\x7d\n%\x7d") (fun _ => none) 0
      = ParseResult.mk true none none (some malformedMsg) ∧
    (splitNL ("> \x7b%\nconst r = n%m\x7d\n%\x7d").data).all
        (fun l => !hasWsGapClose l) = true := by
  constructor <;> decide

/-! ### Splitting, searching and trimming lemmas -/

/-- The opening line used throughout the block theorems. -/
def openLine : List Char :=
  ("> \x7b%").data

/-- Newline-joining at the character level, matching `joinLines`. -/
def joinNLL : List (List Char) → List Char
  | [] => []
  | [l] => l
  | l :: rest => l ++ '\n' :: joinNLL rest

/-- The buffer a block contributes per accumulated line: the line
followed by the joining newline. -/
def glueNL : List (List Char) → List Char
  | [] => []
  | l :: rest => l ++ '\n' :: glueNL rest

theorem joinLines_data : ∀ L : List String, (joinLines L).data = joinNLL (L.map String.data)
  | [] => rfl
  | [l] => rfl
  | l :: l2 :: rest => by
    have ih := joinLines_data (l2 :: rest)
    simp only [joinLines, joinNLL, List.map]
    rw [String.data_append, String.data_append, ih]
    simp [joinNLL]

theorem splitOnChar_no_sep (sep : Char) :
    ∀ l : List Char, l.contains sep = false → splitOnChar sep l = [l]
  | [], _ => rfl
  | c :: rest, h => by
    simp only [List.contains_cons, Bool.or_eq_false_iff, beq_eq_false_iff_ne] at h
    have h1 : (c == sep) = false := beq_eq_false_iff_ne.mpr (fun hh => h.1 hh.symm)
    have h2 : rest.contains sep = false := h.2
    simp [splitOnChar, h1, splitOnChar_no_sep sep rest h2]

theorem splitOnChar_append_sep (sep : Char) :
    ∀ (l tail : List Char), l.contains sep = false →
      splitOnChar sep (l ++ sep :: tail) = l :: splitOnChar sep tail
  | [], tail, _ => by simp [splitOnChar]
  | c :: l, tail, h => by
    simp only [List.contains_cons, Bool.or_eq_false_iff, beq_eq_false_iff_ne] at h
    have h1 : (c == sep) = false := beq_eq_false_iff_ne.mpr (fun hh => h.1 hh.symm)
    have ih := splitOnChar_append_sep sep l tail h.2
    simp [splitOnChar, h1, ih]

theorem splitNL_joinNLL :
    ∀ L : List (List Char), L ≠ [] → (∀ l ∈ L, l.contains '\n' = false) →
      splitNL (joinNLL L) = L
  | [], h, _ => absurd rfl h
  | [l], _, hl => by
    simpa [splitNL, joinNLL] using splitOnChar_no_sep '\n' l (hl l (by simp))
  | l :: l2 :: rest, _, hl => by
    have ih := splitNL_joinNLL (l2 :: rest) (by simp) (fun x hx => hl x (by simp [hx]))
    simp only [joinNLL, splitNL] at ih ⊢
    rw [splitOnChar_append_sep '\n' l (joinNLL (l2 :: rest)) (hl l (by simp))]
    rw [ih]

theorem occursIn_cons (pat : List Char) (c : Char) (rest : List Char) :
    occursIn pat (c :: rest) = (hasPrefixL pat (c :: rest) || occursIn pat rest) := by
  by_cases h : hasPrefixL pat (c :: rest) = true
  · simp [occursIn, firstIdx, h]
  · cases hf : firstIdx pat rest <;>
      simp [occursIn, firstIdx, h, hf]

/-- The closing delimiter never straddles the newline that joins a
clean line to the rest of the buffer: searching past such a line just
shifts the index. -/
theorem firstIdx_closeMark_skip :
    ∀ (l rest : List Char), occursIn closeMark l = false →
      firstIdx closeMark (l ++ '\n' :: rest)
        = (firstIdx closeMark rest).map (· + (l.length + 1))
  | [], rest, _ => by
    have h0 : hasPrefixL closeMark ('\n' :: rest) = false := rfl
    cases hf : firstIdx closeMark rest <;>
      simp [firstIdx, h0, hf]
  | c :: l, rest, h => by
    rw [occursIn_cons] at h
    have h1 : hasPrefixL closeMark (c :: l) = false := by
      cases hp : hasPrefixL closeMark (c :: l) <;> simp_all
    have h2 : occursIn closeMark l = false := by
      cases ho : occursIn closeMark l <;> simp_all
    have h3 : hasPrefixL closeMark (c :: (l ++ '\n' :: rest)) = false := by
      cases l with
      | nil =>
        show (('%' == c) && (('\x7d' == '\n') && true)) = false
        simp
      | cons d l' =>
        have : hasPrefixL closeMark (c :: d :: l') = false := h1
        show (('%' == c) && (('\x7d' == d) && true)) = false
        simpa [hasPrefixL] using this
    have ih := firstIdx_closeMark_skip l rest h2
    show firstIdx closeMark (c :: (l ++ '\n' :: rest)) = _
    rw [firstIdx, if_neg (by simp [h3]), ih]
    cases hf : firstIdx closeMark rest <;> simp [hf]
    omega

/-- Searching the closing delimiter past a glued block of clean lines
shifts the index by the glued length. -/
theorem firstIdx_closeMark_glue :
    ∀ (body : List (List Char)) (tail : List Char),
      (∀ l ∈ body, occursIn closeMark l = false) →
      firstIdx closeMark (glueNL body ++ tail)
        = (firstIdx closeMark tail).map (· + (glueNL body).length)
  | [], tail, _ => by
    cases hf : firstIdx closeMark tail <;> simp [glueNL, hf]
  | l :: body, tail, hb => by
    have ih := firstIdx_closeMark_glue body tail (fun x hx => hb x (by simp [hx]))
    have hskip := firstIdx_closeMark_skip l (glueNL body ++ tail) (hb l (by simp))
    show firstIdx closeMark (l ++ '\n' :: glueNL body ++ tail) = _
    rw [show (l ++ '\n' :: glueNL body ++ tail) = (l ++ '\n' :: (glueNL body ++ tail)) by simp,
      hskip, ih]
    cases hf : firstIdx closeMark tail <;> simp [glueNL, hf]
    omega

theorem jsTrimL_cons_ws (c : Char) (h : isJsWS c = true) (l : List Char) :
    jsTrimL (c :: l) = jsTrimL l := by
  simp [jsTrimL, List.dropWhile_cons, h]

theorem dropWhile_append_singleton (p : Char → Bool) (c : Char) (hc : p c = true) :
    ∀ l : List Char, List.dropWhile p (l ++ [c])
      = if (List.dropWhile p l).isEmpty then [] else List.dropWhile p l ++ [c]
  | [] => by simp [List.dropWhile_cons, hc, List.dropWhile_nil]
  | a :: l => by
    by_cases ha : p a = true
    · simpa [List.dropWhile_cons, ha] using dropWhile_append_singleton p c hc l
    · simp [List.dropWhile_cons, ha]

theorem jsTrimL_append_ws (c : Char) (h : isJsWS c = true) (l : List Char) :
    jsTrimL (l ++ [c]) = jsTrimL l := by
  unfold jsTrimL
  rw [dropWhile_append_singleton isJsWS c h l]
  by_cases he : (List.dropWhile isJsWS l).isEmpty = true
  · rw [if_pos he]
    rw [List.isEmpty_iff.mp he]
  · rw [if_neg he]
    rw [List.reverse_append]
    simp [List.dropWhile_cons, h]

theorem glueNL_eq_joinNLL :
    ∀ body : List (List Char), body ≠ [] → glueNL body = joinNLL body ++ ['\n']
  | [], h => absurd rfl h
  | [l], _ => rfl
  | l :: l2 :: rest, _ => by
    have ih := glueNL_eq_joinNLL (l2 :: rest) (by simp)
    simp only [glueNL, joinNLL] at ih ⊢
    rw [ih]
    simp

/-- Trimming the newline-framed glued block gives the trim of the
plain newline-joined block. -/
theorem jsTrimL_glue (body : List (List Char)) :
    jsTrimL ('\n' :: glueNL body) = jsTrimL (joinNLL body) := by
  rw [jsTrimL_cons_ws '\n' (by decide) (glueNL body)]
  cases hb : body with
  | nil => rfl
  | cons l rest =>
    rw [glueNL_eq_joinNLL (l :: rest) (by simp)]
    exact jsTrimL_append_ws '\n' (by decide) (joinNLL (l :: rest))

/-! ### Inner-loop lemmas -/

theorem collectAux_missing (ls : List (List Char))
    (h : ∀ l ∈ ls, occursIn closeMark l = false ∧ malformedLine l = false) :
    ∀ (buf : List Char) (n : Nat), collectAux buf n ls = CollectOut.missingStop := by
  induction ls with
  | nil => intro buf n; rfl
  | cons l ls ih =>
    intro buf n
    have h1 := (h l (by simp)).1
    have h2 := (h l (by simp)).2
    have ih' := ih (fun x hx => h x (by simp [hx]))
    simp only [collectAux, h1, h2, Bool.false_eq_true, if_false]
    split <;> exact ih' _ _

theorem collectAux_malformed (pre : List (List Char)) (m : List Char)
    (suf : List (List Char))
    (hpre : ∀ l ∈ pre, occursIn closeMark l = false ∧ malformedLine l = false)
    (hm1 : occursIn closeMark m = false) (hm2 : malformedLine m = true) :
    ∀ (buf : List Char) (n : Nat),
      collectAux buf n (pre ++ m :: suf) = CollectOut.malformedStop := by
  induction pre with
  | nil =>
    intro buf n
    simp [collectAux, hm1, hm2]
  | cons l pre ih =>
    intro buf n
    have h1 := (hpre l (by simp)).1
    have h2 := (hpre l (by simp)).2
    have ih' := ih (fun x hx => hpre x (by simp [hx]))
    simp only [List.cons_append, collectAux, h1, h2, Bool.false_eq_true, if_false]
    split <;> exact ih' _ _

theorem collectAux_close (body : List (List Char)) (closeL : List Char)
    (hc : occursIn closeMark closeL = true)
    (hb : ∀ l ∈ body, occursIn closeMark l = false ∧ malformedLine l = false) :
    ∀ (buf : List Char) (n : Nat),
      collectAux buf n (body ++ [closeL])
        = CollectOut.closed (buf ++ glueNL body ++ closeL) (n + body.length + 1) [] := by
  induction body with
  | nil =>
    intro buf n
    simp [collectAux, hc, glueNL]
  | cons l body ih =>
    intro buf n
    have h1 := (hb l (by simp)).1
    have h2 := (hb l (by simp)).2
    have ih' := ih (fun x hx => hb x (by simp [hx]))
    have hie : (body ++ [closeL]).isEmpty = false := by cases body <;> rfl
    simp only [List.cons_append, collectAux, h1, h2, Bool.false_eq_true, if_false,
      List.append_eq, hie]
    rw [ih' (buf ++ l ++ ['\n']) (n + 1)]
    simp only [CollectOut.closed.injEq, List.length_cons]
    refine ⟨by simp [glueNL, List.append_assoc], by omega, trivial⟩

theorem parseLoop_nil (chk : String → Option String) (k idx : Nat)
    (acc : List ParsedHandler) : parseLoop chk k [] idx acc = finishParse acc none := by
  cases k <;> rfl

theorem firstIdx_openMark_head (r : List Char) :
    firstIdx openMark ('>' :: ' ' :: '\x7b' :: '%' :: '\n' :: r) = some 2 :=
  rfl

/-- One handler block with a clean body: the outer loop returns the
single recovered script — the trimmed newline-join of the body
lines. -/
theorem parseLoop_single_block (chk : String → Option String)
    (bodyD : List (List Char)) (k idx : Nat)
    (hcl : ∀ l ∈ bodyD, occursIn closeMark l = false)
    (hml : ∀ l ∈ bodyD, malformedLine l = false)
    (hchk : chk (String.mk (jsTrimL (joinNLL bodyD))) = none) :
    parseLoop chk (k + 1) (openLine :: (bodyD ++ [closeMark])) idx []
      = ParseResult.mk true (some (String.mk (jsTrimL (joinNLL bodyD)))) none none := by
  have hb : ∀ l ∈ (openLine :: bodyD),
      occursIn closeMark l = false ∧ malformedLine l = false := by
    intro l hl
    rcases List.mem_cons.mp hl with h | h
    · subst h
      exact ⟨by decide, by decide⟩
    · exact ⟨hcl l h, hml l h⟩
  have hcol := collectAux_close (openLine :: bodyD) closeMark (by decide) hb [] 0
  rw [List.cons_append] at hcol
  have hbuf : [] ++ glueNL (openLine :: bodyD) ++ closeMark
      = openLine ++ '\n' :: (glueNL bodyD ++ closeMark) := by
    simp [glueNL, List.append_assoc]
  have hsidx : firstIdx openMark ([] ++ glueNL (openLine :: bodyD) ++ closeMark)
      = some 2 := by
    rw [hbuf]
    exact firstIdx_openMark_head _
  have heidx : firstIdx closeMark ([] ++ glueNL (openLine :: bodyD) ++ closeMark)
      = some ((glueNL bodyD).length + 5) := by
    rw [hbuf]
    rw [firstIdx_closeMark_skip openLine (glueNL bodyD ++ closeMark) (by decide)]
    rw [firstIdx_closeMark_glue bodyD closeMark hcl]
    rw [show firstIdx closeMark closeMark = some 0 from rfl]
    show some (0 + (glueNL bodyD).length + (openLine.length + 1)) = _
    simp only [Option.some.injEq]
    rw [show openLine.length = 4 from rfl]
    omega
  have hsub : jsSubstringL ([] ++ glueNL (openLine :: bodyD) ++ closeMark)
      (2 + 2) ((glueNL bodyD).length + 5) = '\n' :: glueNL bodyD := by
    rw [hbuf]
    unfold jsSubstringL
    have h1 : min (2 + 2) ((glueNL bodyD).length + 5) = 4 := by omega
    have h2 : max (2 + 2) ((glueNL bodyD).length + 5) = (glueNL bodyD).length + 5 := by
      omega
    rw [h1, h2]
    rw [show (4 : Nat) = openLine.length from rfl]
    rw [List.drop_left]
    rw [show (glueNL bodyD).length + 5 - openLine.length = (glueNL bodyD).length + 1
      from rfl]
    rw [List.take_succ_cons]
    rw [List.take_left]
  have hscript : String.mk (jsTrimL ('\n' :: glueNL bodyD))
      = String.mk (jsTrimL (joinNLL bodyD)) := by
    rw [jsTrimL_glue]
  have hstart : isResponseHandlerLine openLine = true := by decide
  simp only [parseLoop, hstart, if_true]
  rw [hcol]
  simp only [hsidx, heidx]
  rw [if_neg (show ¬ ((glueNL bodyD).length + 5 ≤ 2) by omega)]
  simp only [hsub, hscript, hchk]
  rw [parseLoop_nil]
  rfl

/-- A block that never closes: the outer loop reports the missing
diagnostic. -/
theorem parseLoop_missing_block (chk : String → Option String)
    (bodyD : List (List Char)) (k idx : Nat)
    (hcl : ∀ l ∈ bodyD, occursIn closeMark l = false)
    (hml : ∀ l ∈ bodyD, malformedLine l = false) :
    parseLoop chk (k + 1) (openLine :: bodyD) idx []
      = ParseResult.mk true none none (some missingMsg) := by
  have hb : ∀ l ∈ (openLine :: bodyD),
      occursIn closeMark l = false ∧ malformedLine l = false := by
    intro l hl
    rcases List.mem_cons.mp hl with h | h
    · subst h
      exact ⟨by decide, by decide⟩
    · exact ⟨hcl l h, hml l h⟩
  have hstart : isResponseHandlerLine openLine = true := by decide
  simp only [parseLoop, hstart, if_true]
  rw [collectAux_missing (openLine :: bodyD) hb [] 0]
  rfl

/-- A block whose first anomalous line is malformed (before any
closing line): the outer loop reports the malformed diagnostic. -/
theorem parseLoop_malformed_block (chk : String → Option String)
    (preD : List (List Char)) (mD : List Char) (sufD : List (List Char)) (k idx : Nat)
    (hcl : ∀ l ∈ preD, occursIn closeMark l = false)
    (hml : ∀ l ∈ preD, malformedLine l = false)
    (hm1 : occursIn closeMark mD = false) (hm2 : malformedLine mD = true) :
    parseLoop chk (k + 1) (openLine :: (preD ++ mD :: sufD)) idx []
      = ParseResult.mk true none none (some malformedMsg) := by
  have hb : ∀ l ∈ (openLine :: preD),
      occursIn closeMark l = false ∧ malformedLine l = false := by
    intro l hl
    rcases List.mem_cons.mp hl with h | h
    · subst h
      exact ⟨by decide, by decide⟩
    · exact ⟨hcl l h, hml l h⟩
  have hstart : isResponseHandlerLine openLine = true := by decide
  have hm := collectAux_malformed (openLine :: preD) mD sufD hb hm1 hm2 [] 0
  rw [List.cons_append] at hm
  simp only [parseLoop, hstart, if_true]
  rw [hm]
  rfl

/-! ### The parser theorems -/

/-- C6 amended: for a block opened by a marker line and closed by the
closing delimiter line, `parseResponseHandler` recovers exactly the
newline-joined body text trimmed of outer whitespace — including
braces and arbitrary Unicode in the body — provided no body line
contains the closing delimiter or triggers the malformed test (a brace
more than one position after the line's last percent sign), and the
syntax probe accepts the script. -/
theorem parse_roundtrip (body : List String) (chk : String → Option String)
    (hnl : ∀ l ∈ body, l.data.contains '\n' = false)
    (hcl : ∀ l ∈ body, occursIn closeMark l.data = false)
    (hml : ∀ l ∈ body, malformedLine l.data = false)
    (hchk : chk (jsTrim (joinLines body)) = none) :
    parseResponseHandler (joinLines (("> \x7b%") :: body ++ ["%\x7d"])) chk 0
      = ParseResult.mk true (some (jsTrim (joinLines body))) none none := by
  have hdata : (joinLines (("> \x7b%") :: body ++ ["%\x7d"])).data
      = joinNLL (openLine :: (body.map String.data ++ [closeMark])) := by
    rw [joinLines_data]
    congr 1
    simp only [List.map_cons, List.map_append, List.map_nil]
    rfl
  have hsplit : splitNL (joinLines (("> \x7b%") :: body ++ ["%\x7d"])).data
      = openLine :: (body.map String.data ++ [closeMark]) := by
    rw [hdata]
    apply splitNL_joinNLL
    · simp
    · intro l hl
      rcases List.mem_cons.mp hl with h | h
      · subst h
        decide
      · rcases List.mem_append.mp h with h2 | h2
        · obtain ⟨x, hx, rfl⟩ := List.mem_map.mp h2
          exact hnl x hx
        · have hm : l = closeMark := by simpa using h2
          subst hm
          decide
  have hclD : ∀ l ∈ body.map String.data, occursIn closeMark l = false := by
    intro l hl
    obtain ⟨x, hx, rfl⟩ := List.mem_map.mp hl
    exact hcl x hx
  have hmlD : ∀ l ∈ body.map String.data, malformedLine l = false := by
    intro l hl
    obtain ⟨x, hx, rfl⟩ := List.mem_map.mp hl
    exact hml x hx
  have hjt : jsTrim (joinLines body) = String.mk (jsTrimL (joinNLL (body.map String.data))) := by
    unfold jsTrim
    rw [joinLines_data]
  have hchkD : chk (String.mk (jsTrimL (joinNLL (body.map String.data)))) = none := by
    rw [← hjt]
    exact hchk
  unfold parseResponseHandler
  rw [hsplit, hjt]
  exact parseLoop_single_block chk (body.map String.data)
    ((body.map String.data ++ [closeMark]).length) 0 hclD hmlD hchkD

/-- C6 amended witness. -/
theorem parse_roundtrip_witness :
    parseResponseHandler ("> \x7b%\nx = 1\n%\x7d") (fun _ => none) 0
      = ParseResult.mk true (some "x = 1") none none := by
  have h := parse_roundtrip ["x = 1"] (fun _ => none) (by decide) (by decide) (by decide) rfl
  have he : joinLines (("> \x7b%") :: ["x = 1"] ++ ["%\x7d"]) = ("> \x7b%\nx = 1\n%\x7d") := by
    decide
  rw [he] at h
  rw [h]
  decide

/-- C7 amended: a block whose closing delimiter never appears (and
whose lines never trigger the malformed test) is diagnosed as missing;
and the malformed diagnostic fires exactly on the first line, before
any closing line, whose first brace after the line's last percent sign
sits more than one position after it — whatever the intervening
characters are, whitespace or not. -/
theorem closing_marker_diagnostics :
    (∀ (body : List String) (chk : String → Option String),
      (∀ l ∈ body, l.data.contains '\n' = false) →
      (∀ l ∈ body, occursIn closeMark l.data = false) →
      (∀ l ∈ body, malformedLine l.data = false) →
      parseResponseHandler (joinLines (("> \x7b%") :: body)) chk 0
        = ParseResult.mk true none none (some missingMsg)) ∧
    (∀ (pre : List String) (m : String) (suf : List String) (chk : String → Option String),
      (∀ l ∈ pre, l.data.contains '\n' = false) →
      (∀ l ∈ pre, occursIn closeMark l.data = false) →
      (∀ l ∈ pre, malformedLine l.data = false) →
      m.data.contains '\n' = false →
      occursIn closeMark m.data = false →
      malformedLine m.data = true →
      (∀ l ∈ suf, l.data.contains '\n' = false) →
      parseResponseHandler (joinLines (("> \x7b%") :: (pre ++ [m] ++ suf))) chk 0
        = ParseResult.mk true none none (some malformedMsg)) := by
  constructor
  · intro body chk hnl hcl hml
    have hdata : (joinLines (("> \x7b%") :: body)).data
        = joinNLL (openLine :: body.map String.data) := by
      rw [joinLines_data]
      rfl
    have hsplit : splitNL (joinLines (("> \x7b%") :: body)).data
        = openLine :: body.map String.data := by
      rw [hdata]
      apply splitNL_joinNLL
      · simp
      · intro l hl
        rcases List.mem_cons.mp hl with h | h
        · subst h
          decide
        · obtain ⟨x, hx, rfl⟩ := List.mem_map.mp h
          exact hnl x hx
    have hclD : ∀ l ∈ body.map String.data, occursIn closeMark l = false := by
      intro l hl
      obtain ⟨x, hx, rfl⟩ := List.mem_map.mp hl
      exact hcl x hx
    have hmlD : ∀ l ∈ body.map String.data, malformedLine l = false := by
      intro l hl
      obtain ⟨x, hx, rfl⟩ := List.mem_map.mp hl
      exact hml x hx
    unfold parseResponseHandler
    rw [hsplit]
    exact parseLoop_missing_block chk (body.map String.data)
      (body.map String.data).length 0 hclD hmlD
  · intro pre m suf chk hnl hcl hml hmn hm1 hm2 hsn
    have hdata : (joinLines (("> \x7b%") :: (pre ++ [m] ++ suf))).data
        = joinNLL (openLine :: (pre.map String.data ++ m.data :: suf.map String.data)) := by
      rw [joinLines_data]
      congr 1
      simp only [List.map_cons, List.map_append, List.map_nil]
      simp [List.append_assoc]
      rfl
    have hsplit : splitNL (joinLines (("> \x7b%") :: (pre ++ [m] ++ suf))).data
        = openLine :: (pre.map String.data ++ m.data :: suf.map String.data) := by
      rw [hdata]
      apply splitNL_joinNLL
      · simp
      · intro l hl
        rcases List.mem_cons.mp hl with h | h
        · subst h
          decide
        · rcases List.mem_append.mp h with h2 | h2
          · obtain ⟨x, hx, rfl⟩ := List.mem_map.mp h2
            exact hnl x hx
          · rcases List.mem_cons.mp h2 with h3 | h3
            · subst h3
              exact hmn
            · obtain ⟨x, hx, rfl⟩ := List.mem_map.mp h3
              exact hsn x hx
    have hclD : ∀ l ∈ pre.map String.data, occursIn closeMark l = false := by
      intro l hl
      obtain ⟨x, hx, rfl⟩ := List.mem_map.mp hl
      exact hcl x hx
    have hmlD : ∀ l ∈ pre.map String.data, malformedLine l = false := by
      intro l hl
      obtain ⟨x, hx, rfl⟩ := List.mem_map.mp hl
      exact hml x hx
    unfold parseResponseHandler
    rw [hsplit]
    exact parseLoop_malformed_block chk (pre.map String.data) m.data (suf.map String.data)
      (pre.map String.data ++ m.data :: suf.map String.data).length 0 hclD hmlD hm1 hm2

/-- C7 amended witness: an unclosed block yields the missing
diagnostic; a line with ordinary characters between its last percent
sign and the following brace yields the malformed diagnostic. -/
theorem closing_marker_diagnostics_witness :
    parseResponseHandler ("> \x7b%\nx = 1") (fun _ => none) 0
      = ParseResult.mk true none none (some missingMsg) ∧
    parseResponseHandler ("> \x7b%\nn%m\x7d") (fun _ => none) 0
      = ParseResult.mk true none none (some malformedMsg) := by
  constructor
  · have h := closing_marker_diagnostics.1 ["x = 1"] (fun _ => none)
      (by decide) (by decide) (by decide)
    have he : joinLines (("> \x7b%") :: ["x = 1"]) = ("> \x7b%\nx = 1") := by decide
    rw [he] at h
    exact h
  · have h := closing_marker_diagnostics.2 [] ("n%m\x7d") [] (fun _ => none)
      (by decide) (by decide) (by decide) (by decide) (by decide) (by decide) (by decide)
    have he : joinLines (("> \x7b%") :: ([] ++ [("n%m\x7d")] ++ [])) = ("> \x7b%\nn%m\x7d") := by
      decide
    rw [he] at h
    exact h

end HttpCli
